import Mathlib

/-!
Verification of the LoRAW low-rank adapter library (loraw/modules.py and
loraw/network.py) against its specification.

The embedding works over exact rational arithmetic.  Tensors are rational
vectors, weight matrices are lists of rows, and PyTorch modules are modelled
as a rose tree of named children.  Random sources (kaiming initialisation,
dropout draws) are passed in as explicit oracle parameters, so every
definition is a translation of the corresponding Python code.
-/

namespace LoRAW

/-! ## Vectors and matrices over ℚ -/

/-- A one-dimensional tensor: a list of exact rationals. -/
abbrev Vec := List ℚ

/-- A weight matrix stored as rows (shape out × in, like `torch.nn.Linear.weight`). -/
abbrev Mat := List Vec

/-- Dot product of two vectors (zip-wise product, summed). -/
def dotp (r x : Vec) : ℚ := (List.zipWith (· * ·) r x).sum

/-- Matrix–vector product: one dot product per row. -/
def matvec (W : Mat) (x : Vec) : Vec := W.map (fun r => dotp r x)

/-- Elementwise addition of two vectors (as in `a + b` on equally shaped tensors). -/
def vadd (a b : Vec) : Vec := List.zipWith (· + ·) a b

/-- Elementwise subtraction. -/
def vsub (a b : Vec) : Vec := List.zipWith (· - ·) a b

/-- Elementwise multiplication by a scalar placed on the right, `v * c`. -/
def vscale (v : Vec) (c : ℚ) : Vec := v.map (· * c)

/-- The all-zero matrix with the given number of rows and columns
(`torch.nn.init.zeros_`). -/
def zerosMat (rows cols : ℕ) : Mat := List.replicate rows (List.replicate cols 0)

theorem dotp_replicate_zero (n : ℕ) (x : Vec) : dotp (List.replicate n 0) x = 0 := by
  induction n generalizing x with
  | zero => simp [dotp]
  | succ k ih =>
    cases x with
    | nil => simp [dotp]
    | cons a xs =>
      simp only [List.replicate_succ, dotp, List.zipWith_cons_cons, List.sum_cons, zero_mul,
        zero_add]
      exact ih xs

theorem matvec_zerosMat (rows cols : ℕ) (x : Vec) :
    matvec (zerosMat rows cols) x = List.replicate rows 0 := by
  simp [matvec, zerosMat, List.map_replicate, dotp_replicate_zero]

theorem matvec_length (W : Mat) (x : Vec) : (matvec W x).length = W.length := by
  simp [matvec]

theorem vscale_replicate_zero (n : ℕ) (c : ℚ) :
    vscale (List.replicate n 0) c = List.replicate n 0 := by
  simp [vscale, List.map_replicate]

theorem vadd_replicate_zero (y : Vec) : vadd y (List.replicate y.length 0) = y := by
  induction y with
  | nil => rfl
  | cons a ys ih =>
    simp only [List.length_cons, List.replicate_succ, vadd, List.zipWith_cons_cons, add_zero]
    simp only [vadd] at ih
    rw [ih]

theorem vsub_vadd_cancel (a b : Vec) (h : b.length ≤ a.length) :
    vsub (vadd a b) a = b := by
  induction a generalizing b with
  | nil =>
    cases b with
    | nil => rfl
    | cons x xs => simp at h
  | cons x xs ih =>
    cases b with
    | nil => rfl
    | cons y ys =>
      simp only [List.length_cons, Nat.succ_le_succ_iff] at h
      simp only [vadd, vsub, List.zipWith_cons_cons, add_sub_cancel_left]
      exact congrArg _ (ih ys h)

theorem vscale_vscale (v : Vec) (c d : ℚ) : vscale (vscale v c) d = vscale v (c * d) := by
  simp [vscale, List.map_map, Function.comp, mul_assoc]

theorem vscale_length (v : Vec) (c : ℚ) : (vscale v c).length = v.length := by
  simp [vscale]

/-! ## Association lists (Python `dict` / `nn.ModuleDict` with insertion order) -/

/-- First-match lookup in an insertion-ordered association list. -/
def lookupAssoc {α : Type} : List (String × α) → String → Option α
  | [], _ => none
  | p :: rest, k => if p.1 = k then some p.2 else lookupAssoc rest k

/-- Python `d[k] = v`: overwrite the value at an existing key in place,
otherwise append the new binding at the end. -/
def updateAssoc {α : Type} (l : List (String × α)) (k : String) (v : α) :
    List (String × α) :=
  if l.any (fun p => p.1 = k) then
    l.map (fun p => if p.1 = k then (k, v) else p)
  else l ++ [(k, v)]

/-- Overwrite the value stored at a key, leaving the list unchanged when the
key is absent (models an in-place `tensor.copy_` through a shared reference). -/
def setAssoc {α : Type} : List (String × α) → String → α → List (String × α)
  | [], _, _ => []
  | (k', v') :: rest, k, v =>
    if k' = k then (k', v) :: setAssoc rest k v else (k', v') :: setAssoc rest k v

theorem lookupAssoc_map_update_ne {α : Type} (l : List (String × α)) (k k' : String) (v : α)
    (hne : k ≠ k') :
    lookupAssoc (l.map (fun p => if p.1 = k then (k, v) else p)) k' = lookupAssoc l k' := by
  induction l with
  | nil => rfl
  | cons p rest ih =>
    by_cases hp : p.1 = k
    · have hhead : (if p.1 = k then (k, v) else p) = (k, v) := if_pos hp
      rw [List.map_cons, hhead]
      simp only [lookupAssoc, if_neg hne, hp, ih]
    · have hhead : (if p.1 = k then (k, v) else p) = p := if_neg hp
      rw [List.map_cons, hhead]
      simp only [lookupAssoc, ih]

theorem lookupAssoc_map_update_self {α : Type} (l : List (String × α)) (k : String) (v : α)
    (hmem : l.any (fun p => p.1 = k) = true) :
    lookupAssoc (l.map (fun p => if p.1 = k then (k, v) else p)) k = some v := by
  induction l with
  | nil => simp at hmem
  | cons p rest ih =>
    by_cases hp : p.1 = k
    · simp [List.map_cons, if_pos hp, lookupAssoc]
    · simp only [List.any_cons, Bool.or_eq_true, decide_eq_true_eq] at hmem
      rcases hmem with h | h
      · exact absurd h hp
      · simp only [List.map_cons, if_neg hp, lookupAssoc, if_neg hp]
        exact ih h

theorem lookupAssoc_append_single_ne {α : Type} (l : List (String × α)) (k k' : String) (v : α)
    (hne : k ≠ k') :
    lookupAssoc (l ++ [(k, v)]) k' = lookupAssoc l k' := by
  induction l with
  | nil => simp [lookupAssoc, hne]
  | cons p rest ih =>
    simp only [List.cons_append, lookupAssoc]
    by_cases hp : p.1 = k'
    · rw [if_pos hp, if_pos hp]
    · rw [if_neg hp, if_neg hp]
      exact ih

theorem lookupAssoc_append_single_self {α : Type} (l : List (String × α)) (k : String) (v : α)
    (hmem : ∀ p ∈ l, p.1 ≠ k) :
    lookupAssoc (l ++ [(k, v)]) k = some v := by
  induction l with
  | nil => simp [lookupAssoc]
  | cons p rest ih =>
    simp only [List.cons_append, lookupAssoc, if_neg (hmem p (List.mem_cons_self p rest))]
    exact ih (fun q hq => hmem q (List.mem_cons_of_mem p hq))

theorem lookupAssoc_updateAssoc {α : Type} (l : List (String × α)) (k k' : String) (v : α) :
    lookupAssoc (updateAssoc l k v) k' =
      if k = k' then some v else lookupAssoc l k' := by
  by_cases hmem : l.any (fun p => p.1 = k)
  · simp only [updateAssoc, hmem, if_true]
    by_cases hkk : k = k'
    · subst hkk
      rw [if_pos rfl]
      exact lookupAssoc_map_update_self l k v hmem
    · rw [if_neg hkk]
      exact lookupAssoc_map_update_ne l k k' v hkk
  · simp only [updateAssoc, hmem, if_false]
    by_cases hkk : k = k'
    · subst hkk
      rw [if_pos rfl]
      refine lookupAssoc_append_single_self l k v (fun p hp hk => ?_)
      exact hmem (List.any_eq_true.mpr ⟨p, hp, decide_eq_true hk⟩)
    · rw [if_neg hkk]
      exact lookupAssoc_append_single_ne l k k' v hkk

/-! ## The adapter module (loraw/modules.py)

`LoRAWLinear` wraps a `torch.nn.Linear` without bias; its weight matrix fully
determines the original forward computation.  Random sources are explicit:
`downInit` stands for the kaiming-uniform draw for `lora_down.weight`, the
`bypass` flag stands for the `torch.rand(1) < self.module_dropout` draw, and
`mask` stands for the action of `torch.nn.functional.dropout` on the
bottleneck activation. -/

/-- A bias-free dense layer (`torch.nn.Linear(in_dim, out_dim, bias=False)`),
stored by its weight matrix of shape out × in. -/
structure Linear where
  weight : Mat

/-- The wrapped module's forward computation `x ↦ W x`. -/
def Linear.forward (m : Linear) (x : Vec) : Vec := matvec m.weight x

/-- State of a `LoRAWLinear` adapter (fields of `LoRAWModule.__init__` plus the
two projection layers added by `LoRAWLinear.__init__`). -/
structure LoRAWLinear where
  lora_name : String
  original : Linear
  multiplier : ℚ
  lora_dim : ℕ
  scale : ℚ
  dropout : Option ℚ
  module_dropout : Option ℚ
  lora_down : Mat
  lora_up : Mat

/-- The alpha resolution in `LoRAWModule.__init__`:
`alpha = self.lora_dim if alpha is None or alpha == 0 else alpha`. -/
def resolveAlpha (lora_dim : ℕ) (alpha : Option ℚ) : ℚ :=
  match alpha with
  | none => (lora_dim : ℚ)
  | some a => if a = 0 then (lora_dim : ℚ) else a

/-- The Python default for the `alpha` parameter of both `LoRAWModule.__init__`
(`alpha=1.0`) and `LoRAWLinear.__init__` (`alpha=1`): the value used when a
caller supplies no explicit alpha argument. -/
def alphaDefault : Option ℚ := some 1

/-- `LoRAWLinear.__init__`: record the constructor arguments, set
`scale = alpha / lora_dim` after alpha resolution, initialise `lora_down`
with the (random) kaiming-uniform draw `downInit` and `lora_up` with
`torch.nn.init.zeros_` of shape out_dim × lora_dim. -/
def LoRAWLinear.construct (name : String) (orig : Linear) (multiplier : ℚ) (lora_dim : ℕ)
    (alpha : Option ℚ) (dropout module_dropout : Option ℚ) (downInit : Mat) : LoRAWLinear :=
  { lora_name := name
    original := orig
    multiplier := multiplier
    lora_dim := lora_dim
    scale := resolveAlpha lora_dim alpha / (lora_dim : ℚ)
    dropout := dropout
    module_dropout := module_dropout
    lora_down := downInit
    lora_up := zerosMat orig.weight.length lora_dim }

/-- `LoRAWModule.forward`: optional stochastic full bypass in training mode,
then down-projection, optional dropout in training mode, up-projection, and
the scaled residual added to the original module's output. -/
def LoRAWLinear.forward (lm : LoRAWLinear) (training bypass : Bool) (mask : Vec → Vec)
    (x : Vec) : Vec :=
  if lm.module_dropout.isSome && training && bypass then
    lm.original.forward x
  else
    let lx := matvec lm.lora_down x
    let lx := if lm.dropout.isSome && training then mask lx else lx
    let lx := matvec lm.lora_up lx
    vadd (lm.original.forward x) (vscale (vscale lx lm.scale) lm.multiplier)

/-- A slot of a parent module's `_modules` table: either an untouched original
module or an injected adapter. -/
inductive Slot where
  | base (m : Linear)
  | lora (lm : LoRAWLinear)

/-- Invoking the module stored in a slot (the host graph calls whatever the
parent's child table currently holds). -/
def Slot.call (training bypass : Bool) (mask : Vec → Vec) (x : Vec) : Slot → Vec
  | .base m => m.forward x
  | .lora lm => lm.forward training bypass mask x

/-- Python `s.split(sep)` for a one-character separator. -/
def splitChar (sep : Char) (s : String) : List String :=
  (s.data.foldr
    (fun c acc =>
      match acc with
      | [] => [[c]]
      | cur :: done => if c = sep then [] :: (cur :: done) else (c :: cur) :: done)
    [[]]).map (fun cs => String.mk cs)

/-- `self.lora_name.split("/")[-1]`. -/
def lastSegment (s : String) : String := ((splitChar '/' s).getLast?).getD ""

/-- `LoRAWModule.inject`: `parent_module._modules[self.lora_name.split("/")[-1]] = self`. -/
def LoRAWLinear.inject (lm : LoRAWLinear) (parentModules : List (String × Slot)) :
    List (String × Slot) :=
  updateAssoc parentModules (lastSegment lm.lora_name) (.lora lm)

/-- `LoRAWModule.inject_forward`: `self.original_module.forward = self.forward`.
The value subsequently bound as the original module's forward is exactly the
adapter's own forward closure. -/
def LoRAWLinear.injectFwd (lm : LoRAWLinear) : Bool → Bool → (Vec → Vec) → Vec → Vec :=
  fun training bypass mask x => lm.forward training bypass mask x

/-! ## The adapter network (loraw/network.py, `LoRAWNetwork`) -/

/-- The part of `LoRAWNetwork` state that `set_multiplier` touches: the global
multiplier and the `lora_modules` dictionary. -/
structure LoRAWNetwork where
  multiplier : ℚ
  lora_modules : List (String × LoRAWLinear)

/-- `LoRAWNetwork.set_multiplier`: store the new multiplier and broadcast it to
every adapter module. -/
def LoRAWNetwork.set_multiplier (net : LoRAWNetwork) (m : ℚ) : LoRAWNetwork :=
  { multiplier := m
    lora_modules := net.lora_modules.map (fun p => (p.1, { p.2 with multiplier := m })) }

theorem Linear.forward_length (m : Linear) (x : Vec) :
    (m.forward x).length = m.weight.length := matvec_length _ _

/-- Any adapter whose up-projection is the zero matrix of the right shape
computes exactly the wrapped module's output, in any mode and for any
realisation of the random draws. -/
theorem forward_of_zero_up (lm : LoRAWLinear)
    (h : lm.lora_up = zerosMat lm.original.weight.length lm.lora_dim)
    (training bypass : Bool) (mask : Vec → Vec) (x : Vec) :
    lm.forward training bypass mask x = lm.original.forward x := by
  by_cases hc : (lm.module_dropout.isSome && training && bypass) = true
  · simp only [LoRAWLinear.forward, hc, if_true]
  · simp only [LoRAWLinear.forward, hc, if_false]
    rw [h, matvec_zerosMat, vscale_replicate_zero, vscale_replicate_zero,
      ← Linear.forward_length lm.original x, vadd_replicate_zero]
    split <;> rfl

/-- C1: an adapter immediately after construction returns exactly the wrapped
module's output for every input, under both structural injection (the parent's
child-module table now resolves to the adapter, whose call is its forward) and
call-interception injection (the rebound forward is the adapter's forward),
because `up_projection` is initialised to all zeros, making the additive term
`up(down(x)) * scale * multiplier` identically zero. -/
theorem fresh_adapter_preserves_output (name : String) (orig : Linear) (mult : ℚ)
    (dim : ℕ) (alpha : Option ℚ) (dr mdr : Option ℚ) (downInit : Mat)
    (parent : List (String × Slot)) (training bypass : Bool) (mask : Vec → Vec) (x : Vec) :
    lookupAssoc ((LoRAWLinear.construct name orig mult dim alpha dr mdr downInit).inject parent)
        (lastSegment name)
      = some (.lora (LoRAWLinear.construct name orig mult dim alpha dr mdr downInit)) ∧
    Slot.call training bypass mask x
        (.lora (LoRAWLinear.construct name orig mult dim alpha dr mdr downInit))
      = orig.forward x ∧
    (LoRAWLinear.construct name orig mult dim alpha dr mdr downInit).injectFwd
        training bypass mask x
      = orig.forward x := by
  refine ⟨?_, ?_, ?_⟩
  · rw [LoRAWLinear.inject, lookupAssoc_updateAssoc]
    exact if_pos rfl
  · exact forward_of_zero_up _ rfl training bypass mask x
  · exact forward_of_zero_up _ rfl training bypass mask x

/-- C4 counterexample: an adapter constructed without an explicit alpha
argument uses the Python default `alpha=1`, so with the default rank 16 its
scale is 1/16, not 1. -/
theorem default_alpha_scale_counterexample :
    (LoRAWLinear.construct "n" ⟨[[1]]⟩ 1 16 alphaDefault none none []).scale = 1 / 16 ∧
    ((1 : ℚ) / 16) ≠ 1 := by
  constructor
  · norm_num [LoRAWLinear.construct, resolveAlpha, alphaDefault]
  · norm_num

/-- C4 (amended): alpha = None or alpha = 0 resolves to the rank, giving
scale = 1; but the constructor's own default alpha is 1 (not None), so a
construction without an explicit alpha argument yields scale = 1/rank. -/
theorem alpha_resolution_scale (dim : ℕ) (h : 0 < dim) (name : String) (orig : Linear)
    (mult : ℚ) (dr mdr : Option ℚ) (down : Mat) :
    (LoRAWLinear.construct name orig mult dim none dr mdr down).scale = 1 ∧
    (LoRAWLinear.construct name orig mult dim (some 0) dr mdr down).scale = 1 ∧
    (LoRAWLinear.construct name orig mult dim alphaDefault dr mdr down).scale
      = 1 / (dim : ℚ) := by
  have hd : (dim : ℚ) ≠ 0 := Nat.cast_ne_zero.mpr h.ne'
  refine ⟨?_, ?_, ?_⟩
  · simp [LoRAWLinear.construct, resolveAlpha, div_self hd]
  · simp [LoRAWLinear.construct, resolveAlpha, div_self hd]
  · simp [LoRAWLinear.construct, resolveAlpha, alphaDefault]

/-- C4 witness: the amended statement evaluated at rank 16. -/
theorem alpha_resolution_scale_witness :
    (LoRAWLinear.construct "n" ⟨[[1]]⟩ 1 16 none none none []).scale = 1 ∧
    (LoRAWLinear.construct "n" ⟨[[1]]⟩ 1 16 (some 0) none none []).scale = 1 ∧
    (LoRAWLinear.construct "n" ⟨[[1]]⟩ 1 16 alphaDefault none none []).scale
      = 1 / (16 : ℚ) := by
  have := alpha_resolution_scale 16 (by norm_num) "n" ⟨[[1]]⟩ 1 none none []
  simpa using this

/-- C5: in evaluation mode, after `set_multiplier(m)` the deviation of an
adapter's output from the base output is `m/m'` times the deviation obtained
after `set_multiplier(m')`, for any nonzero multipliers; the base contribution
is unscaled, and the multiplier is read on each forward call. -/
theorem set_multiplier_scales_residual (net : LoRAWNetwork) (nm : String × LoRAWLinear)
    (hmem : nm ∈ net.lora_modules) (m m' : ℚ) (_hm : m ≠ 0) (hm' : m' ≠ 0)
    (hshape : nm.2.lora_up.length ≤ nm.2.original.weight.length)
    (bypass : Bool) (mask : Vec → Vec) (x : Vec) :
    ((nm.1, { nm.2 with multiplier := m }) ∈ (net.set_multiplier m).lora_modules) ∧
    ((nm.1, { nm.2 with multiplier := m' }) ∈ (net.set_multiplier m').lora_modules) ∧
    vsub (({ nm.2 with multiplier := m }).forward false bypass mask x)
        (nm.2.original.forward x)
      = vscale (vsub (({ nm.2 with multiplier := m' }).forward false bypass mask x)
          (nm.2.original.forward x)) (m / m') := by
  refine ⟨List.mem_map_of_mem _ hmem, List.mem_map_of_mem _ hmem, ?_⟩
  have hfwd : ∀ c : ℚ,
      ({ nm.2 with multiplier := c } : LoRAWLinear).forward false bypass mask x
        = vadd (nm.2.original.forward x)
            (vscale (vscale (matvec nm.2.lora_up (matvec nm.2.lora_down x)) nm.2.scale) c) := by
    intro c
    simp [LoRAWLinear.forward]
  have hcancel : ∀ c : ℚ,
      vsub (({ nm.2 with multiplier := c } : LoRAWLinear).forward false bypass mask x)
          (nm.2.original.forward x)
        = vscale (vscale (matvec nm.2.lora_up (matvec nm.2.lora_down x)) nm.2.scale) c := by
    intro c
    rw [hfwd c]
    apply vsub_vadd_cancel
    rw [vscale_length, vscale_length, matvec_length, Linear.forward_length]
    exact hshape
  rw [hcancel m, hcancel m', vscale_vscale, vscale_vscale, vscale_vscale]
  congr 1
  field_simp

/-- A concrete adapter used to witness the multiplier-scaling theorem. -/
def witMod : LoRAWLinear :=
  { lora_name := "n"
    original := ⟨[[2], [0]]⟩
    multiplier := 1
    lora_dim := 1
    scale := 1
    dropout := none
    module_dropout := none
    lora_down := [[1]]
    lora_up := [[3], [4]] }

/-- A one-adapter network used to witness the multiplier-scaling theorem. -/
def witNet : LoRAWNetwork := { multiplier := 1, lora_modules := [("n", witMod)] }

/-- C5 witness: the multiplier-scaling law applied to a concrete network,
module, input and the multipliers 2 and 3. -/
theorem set_multiplier_scales_residual_witness :
    (("n", { witMod with multiplier := (2 : ℚ) }) ∈ (witNet.set_multiplier 2).lora_modules) ∧
    (("n", { witMod with multiplier := (3 : ℚ) }) ∈ (witNet.set_multiplier 3).lora_modules) ∧
    vsub (({ witMod with multiplier := (2 : ℚ) }).forward false false id [1])
        (witMod.original.forward [1])
      = vscale (vsub (({ witMod with multiplier := (3 : ℚ) }).forward false false id [1])
          (witMod.original.forward [1])) (2 / 3) :=
  set_multiplier_scales_residual witNet ("n", witMod) (by simp [witNet]) 2 3
    (by norm_num) (by norm_num) (by decide) false id [1]

/-! ## The host module graph and the scanner (loraw/network.py, `scan_model`)

A PyTorch module tree: every module has a runtime type name and an
insertion-ordered table of named children (`_modules`).  The host graph is a
tree (the spec takes cyclic or aliased module graphs to be out of scope), so
`named_modules()` needs no memoisation. -/

mutual
/-- A host module: runtime type name plus named children. -/
inductive PyModule where
  | mk (typeName : String) (children : PyChildren)
/-- The insertion-ordered child table of a module. -/
inductive PyChildren where
  | nil
  | cons (name : String) (m : PyModule) (rest : PyChildren)
end

/-- Runtime type name (`module.__class__.__name__`). -/
def PyModule.typeName : PyModule → String
  | .mk t _ => t

/-- The `_modules` table. -/
def PyModule.children : PyModule → PyChildren
  | .mk _ cs => cs

/-- `module._modules[name]` as a partial lookup. -/
def PyChildren.lookup : PyChildren → String → Option PyModule
  | .nil, _ => none
  | .cons n m rest, k => if n = k then some m else rest.lookup k

/-- Extending a dotted path by a child name, as `named_modules` does:
`prefix + ('.' if prefix else '') + name`. -/
def dotJoin (pre n : String) : String := if pre = "" then n else pre ++ "." ++ n

mutual
/-- `module.named_modules(prefix)`: the module itself under the given path,
then every strict descendant under its dotted path, in child order. -/
def namedModules (pre : String) : PyModule → List (String × PyModule)
  | .mk t cs => (pre, .mk t cs) :: namedModulesChildren pre cs
/-- The descendant part of `named_modules`, one child subtree at a time. -/
def namedModulesChildren (pre : String) : PyChildren → List (String × PyModule)
  | .nil => []
  | .cons n c rest => namedModules (dotJoin pre n) c ++ namedModulesChildren pre rest
end

/-- Python `name.split(".")`. -/
def splitDots (s : String) : List String := splitChar '.' s

/-- Python `s.replace(".", "/")` (a single-character replacement). -/
def replaceDots (s : String) : String :=
  String.mk (s.data.map (fun c => if c = '.' then '/' else c))

/-- The member names of the `TargetableModules` enum. -/
def targetableNames : List String := ["Linear", "Conv1d"]

/-- The ancestor-block filter of `scan_model`: the runtime type name is in
`target_blocks`, the dotted-path token set meets the whitelist when one is
given, and is disjoint from the blacklist when one is given. -/
def blockSelected (targetBlocks : List String) (whitelist blacklist : Option (List String))
    (ancestorName : String) (m : PyModule) : Bool :=
  targetBlocks.contains m.typeName
    && (match whitelist with
        | none => true
        | some w => (splitDots ancestorName).any (fun t => w.contains t))
    && (match blacklist with
        | none => true
        | some b => (splitDots ancestorName).all (fun t => !b.contains t))

/-- One entry of the scanner's result: the targeted module together with the
module recorded as its parent. -/
structure Descriptor where
  module : PyModule
  parent : PyModule

/-- The parent-resolution loop
`for name in decendant_name.split(".")[:-1]: ancestor_module = ancestor_module._modules[name]`,
starting from the current value of the `ancestor_module` variable; a missing
child raises `KeyError`. -/
def walkParent : PyModule → List String → Except String PyModule
  | m, [] => .ok m
  | m, n :: rest =>
    match m.children.lookup n with
    | some c => walkParent c rest
    | none => .error "KeyError"

/-- The inner loop of `scan_model` over one selected ancestor block: `cur` is
the current value of the reused `ancestor_module` variable, and the list
argument is the fixed `ancestor_module.named_modules()` iterator created at
loop entry.  Produces the sequence of `module_map[id] = ...` insertions. -/
def scanBlockGo (ancestorName : String) (cur : PyModule) :
    List (String × PyModule) → Except String (List (String × Descriptor))
  | [] => .ok []
  | (dn, dm) :: rest =>
    if targetableNames.contains dm.typeName then
      match walkParent cur ((splitDots dn).dropLast) with
      | .error e => .error e
      | .ok p =>
        match scanBlockGo ancestorName p rest with
        | .error e => .error e
        | .ok evs =>
          .ok ((replaceDots (ancestorName ++ "." ++ dn), ⟨dm, p⟩) :: evs)
    else scanBlockGo ancestorName cur rest

/-- The outer loop of `scan_model` over `model.named_modules()`: every
selected ancestor block contributes its insertion sequence. -/
def scanEventsGo (targetBlocks : List String) (whitelist blacklist : Option (List String)) :
    List (String × PyModule) → Except String (List (String × Descriptor))
  | [] => .ok []
  | (an, am) :: rest =>
    if blockSelected targetBlocks whitelist blacklist an am then
      match scanBlockGo an am (namedModules "" am) with
      | .error e => .error e
      | .ok evs =>
        match scanEventsGo targetBlocks whitelist blacklist rest with
        | .error e => .error e
        | .ok evs' => .ok (evs ++ evs')
    else scanEventsGo targetBlocks whitelist blacklist rest

/-- The full ordered sequence of `module_map[id] = {...}` insertions performed
by `scan_model`. -/
def scanEvents (model : PyModule) (targetBlocks : List String)
    (whitelist blacklist : Option (List String)) :
    Except String (List (String × Descriptor)) :=
  scanEventsGo targetBlocks whitelist blacklist (namedModules "" model)

/-- Replaying the insertion sequence on an (insertion-ordered) Python dict. -/
def buildDict (evs : List (String × Descriptor)) : List (String × Descriptor) :=
  evs.foldl (fun mm kv => updateAssoc mm kv.1 kv.2) []

/-- `scan_model(model, target_blocks, whitelist, blacklist)`: the returned
`module_map`, or the propagated exception. -/
def scan_model (model : PyModule) (targetBlocks : List String)
    (whitelist blacklist : Option (List String)) :
    Except String (List (String × Descriptor)) :=
  (scanEvents model targetBlocks whitelist blacklist).map buildDict

/-! ## Scanner lemmas -/

theorem mem_updateAssoc {α : Type} {l : List (String × α)} {k : String} {v : α}
    {kv : String × α} (h : kv ∈ updateAssoc l k v) : kv ∈ l ∨ kv = (k, v) := by
  unfold updateAssoc at h
  by_cases hmem : l.any (fun p => p.1 = k)
  · rw [if_pos hmem] at h
    obtain ⟨p, hp, hpkv⟩ := List.mem_map.mp h
    by_cases hpk : p.1 = k
    · right
      rw [← hpkv, if_pos hpk]
    · left
      rwa [← hpkv, if_neg hpk]
  · rw [if_neg hmem] at h
    rcases List.mem_append.mp h with h' | h'
    · exact Or.inl h'
    · exact Or.inr (List.mem_singleton.mp h')

theorem mem_foldl_update {α : Type} {kv : String × α} :
    ∀ (evs : List (String × α)) (mm : List (String × α)),
      kv ∈ evs.foldl (fun acc e => updateAssoc acc e.1 e.2) mm → kv ∈ mm ∨ kv ∈ evs := by
  intro evs
  induction evs with
  | nil => intro mm h; exact Or.inl h
  | cons e rest ih =>
    intro mm h
    rcases ih (updateAssoc mm e.1 e.2) h with h' | h'
    · rcases mem_updateAssoc h' with h'' | h''
      · exact Or.inl h''
      · exact Or.inr (by rw [h'']; exact List.mem_cons_self _ _)
    · exact Or.inr (List.mem_cons_of_mem _ h')

theorem mem_buildDict {kv : String × Descriptor} {evs : List (String × Descriptor)}
    (h : kv ∈ buildDict evs) : kv ∈ evs := by
  rcases mem_foldl_update evs [] h with h' | h'
  · cases h'
  · exact h'

theorem scanBlockGo_targetable (an : String) :
    ∀ (l : List (String × PyModule)) (cur : PyModule) (evs : List (String × Descriptor)),
      scanBlockGo an cur l = .ok evs →
      ∀ kv ∈ evs, targetableNames.contains kv.2.module.typeName = true := by
  intro l
  induction l with
  | nil =>
    intro cur evs h kv hkv
    simp only [scanBlockGo, Except.ok.injEq] at h
    subst h
    cases hkv
  | cons p rest ih =>
    intro cur evs h kv hkv
    obtain ⟨dn, dm⟩ := p
    by_cases ht : targetableNames.contains dm.typeName
    · simp only [scanBlockGo, ht, if_true] at h
      cases hw : walkParent cur ((splitDots dn).dropLast) with
      | error e => rw [hw] at h; cases h
      | ok par =>
        rw [hw] at h
        dsimp only at h
        cases hr : scanBlockGo an par rest with
        | error e => rw [hr] at h; cases h
        | ok evs' =>
          rw [hr] at h
          simp only [Except.ok.injEq] at h
          subst h
          rcases List.mem_cons.mp hkv with h' | h'
          · rw [h']
            exact ht
          · exact ih par evs' hr kv h'
    · simp only [scanBlockGo, ht, if_false] at h
      exact ih cur evs h kv hkv

theorem scanEventsGo_targetable (tb : List String) (wl bl : Option (List String)) :
    ∀ (l : List (String × PyModule)) (evs : List (String × Descriptor)),
      scanEventsGo tb wl bl l = .ok evs →
      ∀ kv ∈ evs, targetableNames.contains kv.2.module.typeName = true := by
  intro l
  induction l with
  | nil =>
    intro evs h kv hkv
    simp only [scanEventsGo, Except.ok.injEq] at h
    subst h
    cases hkv
  | cons p rest ih =>
    intro evs h kv hkv
    obtain ⟨an, am⟩ := p
    by_cases hs : blockSelected tb wl bl an am
    · simp only [scanEventsGo, hs, if_true] at h
      cases hb : scanBlockGo an am (namedModules "" am) with
      | error e => rw [hb] at h; cases h
      | ok evs₁ =>
        rw [hb] at h
        dsimp only at h
        cases hr : scanEventsGo tb wl bl rest with
        | error e => rw [hr] at h; cases h
        | ok evs₂ =>
          rw [hr] at h
          simp only [Except.ok.injEq] at h
          subst h
          rcases List.mem_append.mp hkv with h' | h'
          · exact scanBlockGo_targetable an _ am evs₁ hb kv h'
          · exact ih evs₂ hr kv h'
    · simp only [scanEventsGo, hs, if_false] at h
      exact ih evs h kv hkv

theorem lookupAssoc_foldl_of_filter_nil {α : Type} :
    ∀ (evs : List (String × α)) (mm : List (String × α)) (k : String),
      evs.filter (fun e => e.1 = k) = [] →
      lookupAssoc (evs.foldl (fun acc e => updateAssoc acc e.1 e.2) mm) k
        = lookupAssoc mm k := by
  intro evs
  induction evs with
  | nil => intro mm k _; rfl
  | cons e rest ih =>
    intro mm k hf
    rw [List.filter_cons] at hf
    by_cases hek : e.1 = k
    · rw [if_pos (decide_eq_true hek)] at hf
      simp at hf
    · rw [if_neg (by simp [hek])] at hf
      rw [List.foldl_cons, ih _ k hf, lookupAssoc_updateAssoc, if_neg hek]

theorem lookupAssoc_foldl_of_filter_last {α : Type} :
    ∀ (evs : List (String × α)) (mm : List (String × α)) (k : String) (e' : String × α),
      (evs.filter (fun e => e.1 = k)).getLast? = some e' →
      lookupAssoc (evs.foldl (fun acc e => updateAssoc acc e.1 e.2) mm) k = some e'.2 := by
  intro evs
  induction evs with
  | nil => intro mm k e' h; simp at h
  | cons e rest ih =>
    intro mm k e' h
    rw [List.foldl_cons]
    rw [List.filter_cons] at h
    by_cases hek : e.1 = k
    · rw [if_pos (decide_eq_true hek)] at h
      cases hr : rest.filter (fun x => x.1 = k) with
      | nil =>
        rw [hr] at h
        simp only [List.getLast?_singleton, Option.some.injEq] at h
        rw [lookupAssoc_foldl_of_filter_nil rest _ k hr, lookupAssoc_updateAssoc,
          if_pos hek, h]
      | cons b l =>
        rw [hr, List.getLast?_cons_cons] at h
        exact ih _ k e' (by rw [hr]; exact h)
    · rw [if_neg (by simp [hek])] at h
      exact ih _ k e' h

/-! ## Concrete host graphs -/

/-- A dense layer module. -/
def l1M : PyModule := .mk "Linear" .nil

/-- A plain container holding `l1` one level below the ancestor block. -/
def sM : PyModule := .mk "Container" (.cons "l1" l1M .nil)

/-- A dense layer that is a direct child of the ancestor block. -/
def l2M : PyModule := .mk "Linear" .nil

/-- An ancestor block holding the nested container `s` and the direct child
`l2`, in that order. -/
def blkM : PyModule := .mk "Block" (.cons "s" sM (.cons "l2" l2M .nil))

/-- A host graph with one targeted block. -/
def rootM : PyModule := .mk "Model" (.cons "blk" blkM .nil)

/-- A dense layer inside two nested blocks of the targeted type. -/
def linM : PyModule := .mk "Linear" .nil

/-- The inner targeted block. -/
def bInner : PyModule := .mk "Block" (.cons "lin" linM .nil)

/-- The outer targeted block, containing the inner one. -/
def aOuter : PyModule := .mk "Block" (.cons "b" bInner .nil)

/-- A host graph in which the same dense layer is reachable from two nested
targeted ancestor blocks, so both passes build the same qualified id. -/
def rootC3 : PyModule := .mk "Model" (.cons "a" aOuter .nil)

/-- C2: evaluating `scan_model` on a block whose first targetable descendant
is nested (`blk.s.l1`) and whose second one is a direct child (`blk.l2`)
records the nested descendant's parent `s` as the parent of `l2` as well,
because the loop variable holding the ancestor block is reused by the
parent-resolution walk and never reset; the immediate structural container of
`l2` is the block itself, whose child table holds `l2` directly. -/
theorem scan_records_wrong_parent :
    scan_model rootM ["Block"] none none =
      .ok [("blk/s/l1", ⟨l1M, sM⟩), ("blk/l2", ⟨l2M, sM⟩)] ∧
    blkM.children.lookup "l2" = some l2M ∧
    sM.typeName ≠ blkM.typeName := by
  refine ⟨rfl, rfl, ?_⟩
  intro h
  exact absurd h (by decide)

/-- C3 counterexample: on a graph with two nested targeted blocks the scan
performs two insertions with the same qualified id `a/b/lin`, yet
`scan_model` returns normally (no assertion fires) with a one-entry mapping:
the second insertion has replaced the first. -/
theorem scan_collision_returns_ok :
    scanEvents rootC3 ["Block"] none none =
      .ok [("a/b/lin", ⟨linM, bInner⟩), ("a/b/lin", ⟨linM, bInner⟩)] ∧
    scan_model rootC3 ["Block"] none none = .ok [("a/b/lin", ⟨linM, bInner⟩)] :=
  ⟨rfl, rfl⟩

/-- C3 (amended): `scan_model` performs no collision check: it returns the
dictionary obtained by replaying all insertions in order, so when two selected
descendants produce the same qualified id the returned mapping holds the
descriptor of the LAST insertion with that id — the earlier entry is silently
overwritten and no failure occurs. -/
theorem scan_model_last_insertion_wins (model : PyModule) (tb : List String)
    (wl bl : Option (List String)) (evs : List (String × Descriptor))
    (h : scanEvents model tb wl bl = .ok evs) (k : String) :
    scan_model model tb wl bl = .ok (buildDict evs) ∧
    lookupAssoc (buildDict evs) k
      = ((evs.filter (fun e => e.1 = k)).getLast?).map (fun e => e.2) := by
  constructor
  · rw [scan_model, h]
    rfl
  · rw [buildDict]
    cases hl : (evs.filter (fun e => e.1 = k)).getLast? with
    | none =>
      rw [lookupAssoc_foldl_of_filter_nil evs [] k (List.getLast?_eq_none_iff.mp hl)]
      rfl
    | some e =>
      rw [lookupAssoc_foldl_of_filter_last evs [] k e hl]
      rfl

/-- C3 witness: the amended statement evaluated on the nested-blocks graph at
the colliding key. -/
theorem scan_model_last_insertion_wins_witness :
    scan_model rootC3 ["Block"] none none =
      .ok (buildDict [("a/b/lin", ⟨linM, bInner⟩), ("a/b/lin", ⟨linM, bInner⟩)]) ∧
    lookupAssoc (buildDict [("a/b/lin", ⟨linM, bInner⟩), ("a/b/lin", ⟨linM, bInner⟩)])
        "a/b/lin"
      = (([("a/b/lin", (⟨linM, bInner⟩ : Descriptor)),
           ("a/b/lin", ⟨linM, bInner⟩)].filter (fun e => e.1 = "a/b/lin")).getLast?).map
          (fun e => e.2) :=
  scan_model_last_insertion_wins rootC3 ["Block"] none none
    [("a/b/lin", ⟨linM, bInner⟩), ("a/b/lin", ⟨linM, bInner⟩)] rfl "a/b/lin"

/-- C6: the ancestor-block guard of `scan_model` holds iff the block's runtime
type name is in `target_blocks`, its dotted-path token set meets the whitelist
when one is provided, and is disjoint from the blacklist when one is provided;
and every module in a returned mapping has its runtime type in the targetable
set {Linear, Conv1d}. -/
theorem scan_selection_and_targetable (tb : List String) (wl bl : Option (List String))
    (name : String) (m : PyModule) (model : PyModule)
    (mm : List (String × Descriptor)) (kv : String × Descriptor)
    (hscan : scan_model model tb wl bl = .ok mm) (hkv : kv ∈ mm) :
    (blockSelected tb wl bl name m = true ↔
      (m.typeName ∈ tb ∧
        (∀ w, wl = some w → ∃ t ∈ splitDots name, t ∈ w) ∧
        (∀ b, bl = some b → ∀ t ∈ splitDots name, t ∉ b))) ∧
    kv.2.module.typeName ∈ targetableNames := by
  constructor
  · cases wl with
    | none =>
      cases bl with
      | none => simp [blockSelected]
      | some b => simp [blockSelected]
    | some w =>
      cases bl with
      | none => simp [blockSelected]
      | some b => simp [blockSelected, and_assoc]
  · have hevs : ∃ evs, scanEvents model tb wl bl = .ok evs ∧ mm = buildDict evs := by
      unfold scan_model at hscan
      cases hsc : scanEvents model tb wl bl with
      | error e => rw [hsc] at hscan; cases hscan
      | ok evs =>
        rw [hsc] at hscan
        simp only [Except.map, Except.ok.injEq] at hscan
        exact ⟨evs, rfl, hscan.symm⟩
    obtain ⟨evs, hsc, rfl⟩ := hevs
    have := scanEventsGo_targetable tb wl bl (namedModules "" model) evs hsc kv
      (mem_buildDict hkv)
    exact List.elem_iff.mp this

/-- C6 witness: the selection guard and the targetable-type property evaluated
on the concrete one-block graph. -/
theorem scan_selection_and_targetable_witness :
    (blockSelected ["Block"] none none "blk" blkM = true ↔
      (blkM.typeName ∈ ["Block"] ∧
        (∀ w, (none : Option (List String)) = some w → ∃ t ∈ splitDots "blk", t ∈ w) ∧
        (∀ b, (none : Option (List String)) = some b → ∀ t ∈ splitDots "blk", t ∉ b))) ∧
    (("blk/s/l1", (⟨l1M, sM⟩ : Descriptor)).2.module.typeName ∈ targetableNames) :=
  scan_selection_and_targetable ["Block"] none none "blk" blkM rootM
    [("blk/s/l1", ⟨l1M, sM⟩), ("blk/l2", ⟨l2M, sM⟩)] ("blk/s/l1", ⟨l1M, sM⟩)
    rfl (List.mem_cons_self _ _)

/-! ## Weight persistence, merging and the wrapper lifecycle
(loraw/network.py, `LoRAWWrapper`)

The flat adapter parameter surface `residual_modules.state_dict()` is an
insertion-ordered mapping from `"{qualified_id}/lora_down"` /
`"{qualified_id}/lora_up"` keys to tensors.  One-dimensional rational tensors
carry the shape semantics (the shape is the length); `torch`'s 1-D
broadcasting allows elementwise operation between equal lengths or against a
singleton. -/

/-- A stored parameter tensor. -/
abbrev Tensor := Vec

/-- `a + b` under torch 1-D broadcasting: elementwise on equal shapes,
broadcast when one side is a singleton, otherwise a fatal RuntimeError. -/
def broadcastAdd : Tensor → Tensor → Option Tensor
  | a, b =>
    if a.length = b.length then some (vadd a b)
    else
      match a, b with
      | [x], b => some (b.map (fun y => x + y))
      | a, [y] => some (a.map (fun x => x + y))
      | _, _ => none

/-- `param.copy_(src)`: overwrite `param` in place; `src` must have `param`'s
shape or be a singleton broadcast into it, otherwise a fatal RuntimeError. -/
def broadcastCopy (param src : Tensor) : Option Tensor :=
  if src.length = param.length then some src
  else
    match src with
    | [x] => some (List.replicate param.length x)
    | _ => none

/-- One iteration of the `merge_weights` loop:
`param = self.residual_modules.state_dict()[name]` (KeyError if absent), then
`param.copy_(param + weight * multiplier)` writing through the shared tensor.
`none` stands for the raised exception. -/
def mergeStep (state : List (String × Tensor)) (n : String) (w : Tensor) (mult : ℚ) :
    Option (List (String × Tensor)) :=
  match lookupAssoc state n with
  | none => none
  | some param =>
    match broadcastAdd param (vscale w mult) with
    | none => none
    | some s =>
      match broadcastCopy param s with
      | none => none
      | some p => some (setAssoc state n p)

/-- `LoRAWWrapper.merge_weights`: iterate over the saved mapping in order,
merging in place; the first failing entry raises and everything merged so far
stays merged. -/
def merge_weights :
    List (String × Tensor) → List (String × Tensor) → ℚ →
      (List (String × Tensor)) × Option String
  | state, [], _ => (state, none)
  | state, (n, w) :: rest, mult =>
    match mergeStep state n w mult with
    | none => (state, some "merge failed")
    | some st => merge_weights st rest mult

/-- The `state_dict` image after a non-strict `load_state_dict`: every
parameter whose key occurs in the file takes the file's tensor, every other
parameter keeps its value. -/
def loadedState (state weights : List (String × Tensor)) : List (String × Tensor) :=
  state.map (fun kv => (kv.1, (lookupAssoc weights kv.1).getD kv.2))

/-- The structured result of a non-strict `load_state_dict`. -/
structure LoadResult where
  missing_keys : List String
  unexpected_keys : List String

/-- The report returned by `load_state_dict(..., strict=False)`: the ordered
state keys absent from the file and the ordered file keys absent from the
state. -/
def loadReport (state weights : List (String × Tensor)) : LoadResult :=
  { missing_keys :=
      (state.filter (fun kv => (lookupAssoc weights kv.1).isNone)).map Prod.fst
    unexpected_keys :=
      (weights.filter (fun kv => (lookupAssoc state kv.1).isNone)).map Prod.fst }

/-- A matching key whose stored tensor has a different shape than the current
parameter (size mismatches raise even under `strict=False`). -/
def sizeMismatch (weights : List (String × Tensor)) (kv : String × Tensor) : Bool :=
  match lookupAssoc weights kv.1 with
  | some w => w.length != kv.2.length
  | none => false

/-- `load_state_dict(weights, False)`: raise on size-mismatched matching keys,
otherwise copy matching keys and report missing/unexpected ones. -/
def load_state_dict (state weights : List (String × Tensor)) :
    Except String ((List (String × Tensor)) × LoadResult) :=
  if state.any (sizeMismatch weights) then .error "size mismatch"
  else .ok (loadedState state weights, loadReport state weights)

/-- `LoRAWWrapper.load_weights`: deserialize and delegate to the non-strict
`load_state_dict`, returning its report (the mutated state is carried
alongside). -/
def load_weights (state weights : List (String × Tensor)) :
    Except String ((List (String × Tensor)) × LoadResult) :=
  load_state_dict state weights

/-- The wrapper lifecycle state: the two flags of `LoRAWWrapper.__init__`
plus the observable effects of activation and training preparation. -/
structure LoRAWWrapper where
  is_active : Bool
  is_trainable : Bool
  net_active : Bool
  base_frozen : Bool
  lora_trainable : Bool

/-- `LoRAWWrapper.activate`: `assert not self.is_active` (the raised assertion
leaves the object untouched), then inject the network and set the flag. -/
def LoRAWWrapper.activate (s : LoRAWWrapper) : LoRAWWrapper × Option String :=
  if s.is_active then (s, some "LoRAW is already active")
  else ({ s with net_active := true, is_active := true }, none)

/-- `LoRAWWrapper.prepare_for_training`: `assert self.is_active` (the raised
assertion leaves the object untouched), then freeze the base graph, unfreeze
the adapters and mark the wrapper trainable. -/
def LoRAWWrapper.prepare_for_training (s : LoRAWWrapper) : LoRAWWrapper × Option String :=
  if s.is_active then
    ({ s with base_frozen := true, lora_trainable := true, is_trainable := true }, none)
  else (s, some "LoRAW must be activated before training preparation")

/-- A serialised tensor dtype. -/
inductive DType where
  | float16
  | float32
  | bfloat16
  deriving DecidableEq

/-- A tensor together with its in-memory dtype, as persisted by `torch.save`. -/
structure TTensor where
  dtype : DType
  data : Vec

/-- The Python default of `save_weights`' `dtype` parameter (`torch.float16`). -/
def saveDtypeDefault : DType := .float16

/-- `LoRAWWrapper.save_weights(path, dtype)`: the serialized object is
`self.residual_modules.state_dict()` exactly as it sits in memory; the dtype
argument is never read. -/
def LoRAWWrapper.save_weights (residual : List (String × TTensor)) (dtype : DType) :
    List (String × TTensor) :=
  residual

/-! ## Merge lemmas -/

theorem lookupAssoc_setAssoc_ne {α : Type} (l : List (String × α)) (n k : String) (v : α)
    (hne : ¬ n = k) : lookupAssoc (setAssoc l n v) k = lookupAssoc l k := by
  induction l with
  | nil => rfl
  | cons q rest ih =>
    obtain ⟨k', v'⟩ := q
    by_cases hn : k' = n
    · subst hn
      simp only [setAssoc, if_pos rfl, lookupAssoc]
      rw [if_neg hne, if_neg hne]
      exact ih
    · simp only [setAssoc, if_neg hn, lookupAssoc]
      by_cases hk : k' = k
      · rw [if_pos hk, if_pos hk]
      · rw [if_neg hk, if_neg hk]
        exact ih

theorem mergeStep_some {s : List (String × Tensor)} {n : String} {w : Tensor} {mult : ℚ}
    {st : List (String × Tensor)} (h : mergeStep s n w mult = some st) :
    ∃ p, st = setAssoc s n p := by
  unfold mergeStep at h
  cases h1 : lookupAssoc s n with
  | none => rw [h1] at h; cases h
  | some param =>
    rw [h1] at h
    dsimp only at h
    cases h2 : broadcastAdd param (vscale w mult) with
    | none => rw [h2] at h; cases h
    | some sum =>
      rw [h2] at h
      dsimp only at h
      cases h3 : broadcastCopy param sum with
      | none => rw [h3] at h; cases h
      | some p =>
        rw [h3] at h
        dsimp only at h
        simp only [Option.some.injEq] at h
        exact ⟨p, h.symm⟩

theorem merge_only_touches_keys :
    ∀ (l s : List (String × Tensor)) (mult : ℚ) (k : String),
      k ∉ l.map Prod.fst →
      lookupAssoc ((merge_weights s l mult).1) k = lookupAssoc s k := by
  intro l
  induction l with
  | nil => intro s mult k _; rfl
  | cons e rest ih =>
    intro s mult k hk
    obtain ⟨n, w⟩ := e
    simp only [List.map_cons, List.mem_cons, not_or] at hk
    obtain ⟨hkn, hkrest⟩ := hk
    cases hms : mergeStep s n w mult with
    | none => simp [merge_weights, hms]
    | some st =>
      rw [show merge_weights s ((n, w) :: rest) mult = merge_weights st rest mult by
        simp [merge_weights, hms]]
      rw [ih st mult k hkrest]
      obtain ⟨p, rfl⟩ := mergeStep_some hms
      exact lookupAssoc_setAssoc_ne s n k p (fun h => hkn h.symm)

theorem merge_weights_append_of_ok :
    ∀ (pre s rest : List (String × Tensor)) (mult : ℚ),
      (merge_weights s pre mult).2 = none →
      merge_weights s (pre ++ rest) mult
        = merge_weights (merge_weights s pre mult).1 rest mult := by
  intro pre
  induction pre with
  | nil => intro s rest mult _; rfl
  | cons e pre' ih =>
    intro s rest mult hpre
    obtain ⟨n, w⟩ := e
    cases hms : mergeStep s n w mult with
    | none =>
      exfalso
      rw [show merge_weights s ((n, w) :: pre') mult = (s, some "merge failed") by
        simp [merge_weights, hms]] at hpre
      cases hpre
    | some st =>
      have huf : ∀ l, merge_weights s ((n, w) :: l) mult = merge_weights st l mult := by
        intro l
        simp [merge_weights, hms]
      rw [List.cons_append, huf (pre' ++ rest), huf pre']
      rw [huf pre'] at hpre
      exact ih st rest mult hpre

/-- The adapter parameter surface before a merge. -/
def mergeState0 : List (String × Tensor) := [("a", [1, 2]), ("b", [3, 4])]

/-- The same surface after the first (matching) file entry has been merged. -/
def mergeState1 : List (String × Tensor) := [("a", [11, 22]), ("b", [3, 4])]

/-- A saved adapter mapping whose first tensor matches and whose second tensor
has an incompatible shape. -/
def mergeFile0 : List (String × Tensor) := [("a", [10, 20]), ("b", [1, 2, 3])]

/-- C7 counterexample: merging a file whose second entry is shape-incompatible
fails fatally, but the first parameter has already been overwritten in place —
after the failed call parameter `a` holds `[11, 22]`, not its pre-call value
`[1, 2]`, so the merge is not all-or-nothing. -/
theorem merge_partial_counterexample :
    merge_weights mergeState0 mergeFile0 1 = (mergeState1, some "merge failed") ∧
    lookupAssoc mergeState1 "a" = some [11, 22] ∧
    lookupAssoc mergeState0 "a" = some [1, 2] ∧
    ([(11 : ℚ), 22] ≠ [(1 : ℚ), 2]) := by
  have hab : ¬ ("a" : String) = "b" := by decide
  have hba : ¬ ("b" : String) = "a" := by decide
  have h1 : mergeStep mergeState0 "a" [10, 20] 1 = some mergeState1 := by
    norm_num [mergeStep, mergeState0, mergeState1, lookupAssoc, broadcastAdd, broadcastCopy,
      vadd, vscale, setAssoc, hab, hba]
  have h2 : mergeStep mergeState1 "b" [1, 2, 3] 1 = none := by
    norm_num [mergeStep, mergeState1, lookupAssoc, broadcastAdd, broadcastCopy, vadd, vscale,
      hab, hba]
  refine ⟨?_, rfl, rfl, ?_⟩
  · simp [mergeFile0, merge_weights, h1, h2]
  · simp only [ne_eq, List.cons.injEq, not_and]
    intro h
    norm_num at h

/-- C7 (amended): when the saved mapping is a merged prefix followed by a
failing entry, `merge_weights` raises at that entry and stops, but the prefix
has already been merged in place: the returned state is the state after the
successful prefix, and only parameters whose keys are outside the prefix
retain their pre-call values. -/
theorem merge_weights_prefix_persists (s pre rest : List (String × Tensor))
    (n : String) (w : Tensor) (mult : ℚ)
    (hpre : (merge_weights s pre mult).2 = none)
    (hfail : mergeStep (merge_weights s pre mult).1 n w mult = none) :
    merge_weights s (pre ++ (n, w) :: rest) mult
      = ((merge_weights s pre mult).1, some "merge failed") ∧
    ∀ k, k ∉ pre.map Prod.fst →
      lookupAssoc ((merge_weights s (pre ++ (n, w) :: rest) mult).1) k
        = lookupAssoc s k := by
  have hsplit : merge_weights s (pre ++ (n, w) :: rest) mult
      = merge_weights (merge_weights s pre mult).1 ((n, w) :: rest) mult :=
    merge_weights_append_of_ok pre s ((n, w) :: rest) mult hpre
  have hstep : merge_weights (merge_weights s pre mult).1 ((n, w) :: rest) mult
      = ((merge_weights s pre mult).1, some "merge failed") := by
    simp [merge_weights, hfail]
  constructor
  · rw [hsplit, hstep]
  · intro k hk
    rw [hsplit, hstep]
    exact merge_only_touches_keys pre s mult k hk

/-- C7 witness: the amended statement evaluated on the concrete two-parameter
surface, showing the untouched parameter `b` keeps its pre-call value. -/
theorem merge_weights_prefix_persists_witness :
    merge_weights mergeState0 ([("a", [10, 20])] ++ ("b", [1, 2, 3]) :: []) 1
      = ((merge_weights mergeState0 [("a", [10, 20])] 1).1, some "merge failed") ∧
    lookupAssoc ((merge_weights mergeState0
        ([("a", [10, 20])] ++ ("b", [1, 2, 3]) :: []) 1).1) "b"
      = lookupAssoc mergeState0 "b" := by
  have hab : ¬ ("a" : String) = "b" := by decide
  have hba : ¬ ("b" : String) = "a" := by decide
  have h1 : mergeStep mergeState0 "a" [10, 20] 1 = some mergeState1 := by
    norm_num [mergeStep, mergeState0, mergeState1, lookupAssoc, broadcastAdd, broadcastCopy,
      vadd, vscale, setAssoc, hab, hba]
  have h2 : mergeStep mergeState1 "b" [1, 2, 3] 1 = none := by
    norm_num [mergeStep, mergeState1, lookupAssoc, broadcastAdd, broadcastCopy, vadd, vscale,
      hab, hba]
  have hm : merge_weights mergeState0 [("a", [10, 20])] 1 = (mergeState1, none) := by
    simp [merge_weights, h1]
  have h := merge_weights_prefix_persists mergeState0 [("a", [10, 20])] [] "b" [1, 2, 3] 1
    (by rw [hm]) (by rw [hm]; exact h2)
  exact ⟨h.1, h.2 "b" (by decide)⟩

/-! ## Load lemmas -/

theorem lookupAssoc_isSome_iff {α : Type} :
    ∀ (l : List (String × α)) (k : String),
      (lookupAssoc l k).isSome = true ↔ ∃ p ∈ l, p.1 = k := by
  intro l
  induction l with
  | nil => intro k; simp [lookupAssoc]
  | cons q rest ih =>
    intro k
    by_cases hq : q.1 = k
    · simp [lookupAssoc, hq]
    · simp only [lookupAssoc, if_neg hq, List.mem_cons]
      rw [ih k]
      constructor
      · rintro ⟨p, hp, hpk⟩
        exact ⟨p, Or.inr hp, hpk⟩
      · rintro ⟨p, hp | hp, hpk⟩
        · exact absurd (hp ▸ hpk) hq
        · exact ⟨p, hp, hpk⟩

theorem lookup_loadedState :
    ∀ (state weights : List (String × Tensor)) (k : String),
      lookupAssoc (loadedState state weights) k
        = (lookupAssoc state k).map (fun v => (lookupAssoc weights k).getD v) := by
  intro state weights
  induction state with
  | nil => intro k; rfl
  | cons kv rest ih =>
    intro k
    by_cases hq : kv.1 = k
    · simp [loadedState, lookupAssoc, hq]
    · simp only [loadedState, List.map_cons, lookupAssoc, if_neg hq]
      exact ih k

/-- C8: under matching shapes for the matching keys, `load_weights` succeeds
(no hard failure on missing or unexpected keys), loads exactly the matching
keys, leaves every parameter whose key is absent from the file unchanged, and
the returned report lists exactly the state keys absent from the file and the
file keys absent from the state. -/
theorem load_weights_tolerant (state weights : List (String × Tensor))
    (hshape : ∀ kv ∈ state, ∀ w, lookupAssoc weights kv.1 = some w →
      w.length = kv.2.length) :
    load_weights state weights
      = .ok (loadedState state weights, loadReport state weights) ∧
    (∀ k, lookupAssoc weights k = none →
      lookupAssoc (loadedState state weights) k = lookupAssoc state k) ∧
    (∀ k w, lookupAssoc weights k = some w → (lookupAssoc state k).isSome = true →
      lookupAssoc (loadedState state weights) k = some w) ∧
    (∀ k, k ∈ (loadReport state weights).missing_keys ↔
      ((lookupAssoc state k).isSome = true ∧ lookupAssoc weights k = none)) ∧
    (∀ k, k ∈ (loadReport state weights).unexpected_keys ↔
      ((lookupAssoc weights k).isSome = true ∧ lookupAssoc state k = none)) := by
  refine ⟨?_, ?_, ?_, ?_, ?_⟩
  · rw [load_weights, load_state_dict, if_neg]
    intro hany
    obtain ⟨kv, hkv, hbad⟩ := List.any_eq_true.mp hany
    unfold sizeMismatch at hbad
    cases hw : lookupAssoc weights kv.1 with
    | none => rw [hw] at hbad; cases hbad
    | some w =>
      rw [hw] at hbad
      dsimp only at hbad
      rw [hshape kv hkv w hw] at hbad
      simp at hbad
  · intro k hk
    rw [lookup_loadedState]
    cases lookupAssoc state k with
    | none => rfl
    | some v => simp [hk]
  · intro k w hw hsome
    obtain ⟨v, hv⟩ := Option.isSome_iff_exists.mp hsome
    rw [lookup_loadedState, hv]
    simp [hw]
  · intro k
    simp only [loadReport, List.mem_map, List.mem_filter, Option.isNone_iff_eq_none]
    constructor
    · rintro ⟨kv, ⟨hmem, hnone⟩, rfl⟩
      exact ⟨(lookupAssoc_isSome_iff state kv.1).mpr ⟨kv, hmem, rfl⟩, hnone⟩
    · rintro ⟨hsome, hnone⟩
      obtain ⟨p, hp, hpk⟩ := (lookupAssoc_isSome_iff state k).mp hsome
      exact ⟨p, ⟨hp, by rw [hpk]; exact hnone⟩, hpk⟩
  · intro k
    simp only [loadReport, List.mem_map, List.mem_filter, Option.isNone_iff_eq_none]
    constructor
    · rintro ⟨kv, ⟨hmem, hnone⟩, rfl⟩
      exact ⟨(lookupAssoc_isSome_iff weights kv.1).mpr ⟨kv, hmem, rfl⟩, hnone⟩
    · rintro ⟨hsome, hnone⟩
      obtain ⟨p, hp, hpk⟩ := (lookupAssoc_isSome_iff weights k).mp hsome
      exact ⟨p, ⟨hp, by rw [hpk]; exact hnone⟩, hpk⟩

/-- The two adapter parameters of one target module, prior to loading. -/
def loadState0 : List (String × Tensor) := [("x/lora_down", [1]), ("x/lora_up", [2])]

/-- A weight file providing only one of the two expected keys. -/
def loadFile0 : List (String × Tensor) := [("x/lora_down", [5])]

/-- C8 witness: loading a file missing one of the two expected keys succeeds,
loads the present key, reports the absent key as missing, and leaves the other
parameter unchanged. -/
theorem load_weights_tolerant_witness :
    load_weights loadState0 loadFile0
      = .ok (loadedState loadState0 loadFile0, loadReport loadState0 loadFile0) ∧
    lookupAssoc (loadedState loadState0 loadFile0) "x/lora_up"
      = lookupAssoc loadState0 "x/lora_up" ∧
    lookupAssoc (loadedState loadState0 loadFile0) "x/lora_down" = some [5] ∧
    ("x/lora_up" ∈ (loadReport loadState0 loadFile0).missing_keys ↔
      ((lookupAssoc loadState0 "x/lora_up").isSome = true ∧
        lookupAssoc loadFile0 "x/lora_up" = none)) := by
  have h := load_weights_tolerant loadState0 loadFile0 (by
    intro kv hkv w hw
    rcases List.mem_cons.mp hkv with h | h
    · subst h
      have hw2 : some ([5] : Tensor) = some w := hw
      injection hw2 with h5
      rw [← h5]
      rfl
    · rcases List.mem_cons.mp h with h' | h'
      · subst h'
        exact Option.noConfusion (show (none : Option Tensor) = some w from hw)
      · cases h')
  refine ⟨h.1, h.2.1 "x/lora_up" rfl, h.2.2.1 "x/lora_down" [5] rfl rfl, h.2.2.2.1 "x/lora_up"⟩

/-- C9: activating an already-active wrapper fails on the assertion with the
wrapper state untouched, and preparing for training before activation fails on
the assertion with the wrapper state untouched. -/
theorem lifecycle_assert_order (s : LoRAWWrapper) :
    (s.is_active = true →
      s.activate = (s, some "LoRAW is already active")) ∧
    (s.is_active = false →
      s.prepare_for_training
        = (s, some "LoRAW must be activated before training preparation")) := by
  constructor
  · intro h
    simp [LoRAWWrapper.activate, h]
  · intro h
    simp [LoRAWWrapper.prepare_for_training, h]

/-- C9 witness: the two assertion failures evaluated on concrete wrapper
states. -/
theorem lifecycle_assert_order_witness :
    (LoRAWWrapper.mk true false true false false).activate
      = (LoRAWWrapper.mk true false true false false, some "LoRAW is already active") ∧
    (LoRAWWrapper.mk false false false false false).prepare_for_training
      = (LoRAWWrapper.mk false false false false false,
         some "LoRAW must be activated before training preparation") :=
  ⟨(lifecycle_assert_order (LoRAWWrapper.mk true false true false false)).1 rfl,
   (lifecycle_assert_order (LoRAWWrapper.mk false false false false false)).2 rfl⟩

/-- C10: the dtype argument of `save_weights` (whose Python default is the
half-precision `torch.float16`) has no effect on the serialized mapping: the
output is identical for any two dtype arguments and equals the in-memory
parameter mapping, so every tensor is persisted in its current dtype. -/
theorem save_weights_ignores_dtype (residual : List (String × TTensor)) (d₁ d₂ : DType) :
    LoRAWWrapper.save_weights residual d₁ = LoRAWWrapper.save_weights residual d₂ ∧
    LoRAWWrapper.save_weights residual d₁ = residual ∧
    saveDtypeDefault = DType.float16 :=
  ⟨rfl, rfl, rfl⟩

end LoRAW
